/-
Verification of the document-ingestion core of the TheBuildGuild exam-paper
RAG service (rag/src).  Each Python function that a claim refers to is
shallowly embedded as an executable Lean definition; machine integers are
modelled as Int/Nat (Python integers are unbounded), fallible code returns
Option/Except, and external collaborators (network, Gemini, Postgres,
Qdrant) are modelled as explicit oracles / state so that the pure control
flow of the source is preserved.
-/
import Mathlib

set_option linter.unusedVariables false

/- ### rag/src/utils/page_mapper.py -/

/-- One entry of the chunk list handed to `map_page_to_chunk` (the
dictionaries produced by `split_pdf` carrying path, chunk_number,
page_start and page_end); only the fields the function reads are kept. -/
structure ChunkRange where
  chunk_number : Int
  page_start : Int
  page_end : Int
deriving DecidableEq, Repr

/-- Model of `map_page_to_chunk` from rag/src/utils/page_mapper.py: scan
the chunk list in order and return the `chunk_number` of the first chunk
whose page range contains `page_number`; `-1` if none does. -/
def map_page_to_chunk (page_number : Int) : List ChunkRange → Int
  | [] => -1
  | c :: rest =>
    if c.page_start ≤ page_number ∧ page_number ≤ c.page_end then
      c.chunk_number
    else
      map_page_to_chunk page_number rest

/- ### rag/src/document/validator.py and rag/src/document_processor.py -/

/-- Abstract model of a PDF file as seen through PyPDF2: `parse` is the
outcome of `PdfReader(f)` / `len(pdf_reader.pages)` (structural failure or a
page count), `extract_first` is the outcome of
`pdf_reader.pages[0].extract_text()` on the first page (only meaningful when
the page count is positive). -/
structure PdfModel where
  parse : Except String Nat
  extract_first : Except String String

/-- Model of `validate_pdf` from rag/src/document/validator.py: open the
PDF structure, read the page count, and, when at least one page exists, read
the first page's content; any raised error is caught and reported as `none`
(the caller turns `none` into the corrupt-document outcome). -/
def validate_pdf (m : PdfModel) : Option Nat :=
  match m.parse with
  | .error _ => none
  | .ok page_count =>
    if 0 < page_count then
      match m.extract_first with
      | .error _ => none
      | .ok _ => some page_count
    else
      some page_count

/-- Model of `validate_pdf` from rag/src/document_processor.py: same as the
document/validator.py variant except that `pages[0].extract_text()` is
attempted unconditionally, so a zero-page document raises IndexError and is
reported as `none` as well. -/
def validate_pdf_unconditional (m : PdfModel) : Option Nat :=
  match m.parse with
  | .error _ => none
  | .ok page_count =>
    if 0 < page_count then
      match m.extract_first with
      | .error _ => none
      | .ok _ => some page_count
    else
      none

/- ### rag/src/document/splitter.py (identical copy in document_processor.py) -/

/-- One element of the list returned by `split_pdf`; the `path` of the
written chunk file is immaterial to the claims and is omitted. -/
structure PageChunk where
  chunk_number : Nat
  page_start : Nat
  page_end : Nat
deriving DecidableEq, Repr

/-- The `for start_page in range(0, total_pages, pages_per_chunk)` loop of
`split_pdf`.  The step of the Python `range` is `step_pred + 1`, making the
well-founded recursion on `total_pages - start_page` evident (a zero step
would raise `ValueError` in Python). -/
def splitLoop (total_pages step_pred : Nat) (start_page chunk_number : Nat) :
    List PageChunk :=
  if h : start_page < total_pages then
    let end_page := min (start_page + (step_pred + 1)) total_pages
    { chunk_number := chunk_number, page_start := start_page + 1, page_end := end_page } ::
      splitLoop total_pages step_pred (start_page + (step_pred + 1)) (chunk_number + 1)
  else
    []
termination_by total_pages - start_page
decreasing_by omega

/-- Model of `split_pdf` from rag/src/document/splitter.py, for a document
with `total_pages` pages and a positive `pages_per_chunk`: if the whole
document fits in one chunk return a single chunk spanning it, otherwise
emit consecutive windows of `pages_per_chunk` pages (the last one possibly
shorter), numbered from 1.  (For `pages_per_chunk = 0` the Python `range`
raises `ValueError`; the claims only concern a positive chunk size.) -/
def split_pdf (total_pages : Nat) (pages_per_chunk : Nat) : List PageChunk :=
  if total_pages ≤ pages_per_chunk then
    [{ chunk_number := 1, page_start := 1, page_end := total_pages }]
  else
    splitLoop total_pages (pages_per_chunk - 1) 0 1

/- ### rag/src/document_ingest.py : paper attribution -/

/-- A detected exam paper as the attribution functions see it: the rows
returned by `save_papers_metadata` (dictionaries with an optional database
`id` and the detector's optional `start_page_estimate` and
`end_page_estimate`); the remaining metadata fields play no role in
attribution and are omitted. -/
structure Paper where
  id : Option String
  start_page_estimate : Option Int
  end_page_estimate : Option Int
deriving DecidableEq, Repr

/-- A chunk dictionary as produced by `split_pdf` and consumed by the
pipeline: chunk number, 1-indexed page range, and the text that
`extract_text_with_gemini` returned for it (an oracle value; the empty
string models an extraction that yielded nothing). -/
structure ChunkInfo where
  chunk_number : Nat
  page_start : Int
  page_end : Int
  text_content : String
deriving DecidableEq, Repr

/-- The clamping of a missing paper start-page estimate performed by both
attribution functions: `p_start = 0` when the estimate is absent. -/
def paperStart (p : Paper) : Int :=
  p.start_page_estimate.getD 0

/-- The clamping of a missing paper end-page estimate performed by both
attribution functions: `p_end = 9999` when the estimate is absent. -/
def paperEnd (p : Paper) : Int :=
  p.end_page_estimate.getD 9999

/-- The overlap test both attribution functions apply to one paper:
`max(chunk_start, p_start) <= min(chunk_end, p_end)`. -/
def paperOverlaps (chunk_info : ChunkInfo) (p : Paper) : Bool :=
  max chunk_info.page_start (paperStart p) ≤ min chunk_info.page_end (paperEnd p)

/-- Model of `find_all_overlapping_papers` from rag/src/document_ingest.py:
empty input gives no overlaps, a single paper is returned unconditionally
(single-paper fallback), and otherwise the papers whose clamped page range
intersects the chunk's range are kept in input order. -/
def find_all_overlapping_papers (chunk_info : ChunkInfo) (papers : List Paper) :
    List Paper :=
  match papers with
  | [] => []
  | [p] => [p]
  | _ => papers.filter (fun p => paperOverlaps chunk_info p)

/-- The body of the search loop of `find_matching_paper`: fold the papers
left to right carrying `(best_paper, max_overlap)`, replacing the best
candidate only on a strictly larger overlap length. -/
def matchStep (chunk_info : ChunkInfo) (acc : Option Paper × Int) (p : Paper) :
    Option Paper × Int :=
  let overlap_start := max chunk_info.page_start (paperStart p)
  let overlap_end := min chunk_info.page_end (paperEnd p)
  if overlap_start ≤ overlap_end then
    let overlap_len := overlap_end - overlap_start + 1
    if acc.2 < overlap_len then (some p, overlap_len) else acc
  else
    acc

/-- Model of `find_matching_paper` from rag/src/document_ingest.py: `none`
for no papers, the single paper's id for exactly one paper, and otherwise
the id of the overlapping paper with the maximum overlap length
(`best_paper` starts as `None` with `max_overlap = 0` and is replaced only
on strictly larger overlaps, so the first maximum in input order wins). -/
def find_matching_paper (chunk_info : ChunkInfo) (papers : List Paper) :
    Option String :=
  match papers with
  | [] => none
  | [p] => p.id
  | _ => (papers.foldl (matchStep chunk_info) (none, 0)).1.bind Paper.id

/-- The overlap length the specification describes:
`overlapLen = min(chunkEnd, paperEnd) - max(chunkStart, paperStart) + 1`
with the missing bounds clamped to 0 and 9999. -/
def overlapLen (chunk_info : ChunkInfo) (p : Paper) : Int :=
  min chunk_info.page_end (paperEnd p) - max chunk_info.page_start (paperStart p) + 1

/-- Specification-side primary selection (written from the words of the
spec, to be compared with `find_matching_paper`): among the papers whose
`overlapLen` is at least 1, keep the first one in input order attaining the
largest `overlapLen`. -/
def findPrimarySpec (chunk_info : ChunkInfo) (papers : List Paper) : Option Paper :=
  (papers.filter (fun p => 1 ≤ overlapLen chunk_info p)).foldl
    (fun best p =>
      match best with
      | none => some p
      | some b => if overlapLen chunk_info b < overlapLen chunk_info p then some p else best)
    none

/- ### Claim C10 : page-to-chunk mapping -/

/-- C10.  For every page number and every list of chunks,
`map_page_to_chunk` returns the `chunk_number` of the first chunk in list
order whose range contains the page, and `-1` when no chunk's range
contains it. -/
theorem C10_map_page_to_chunk (page_number : Int) (chunks : List ChunkRange) :
    map_page_to_chunk page_number chunks =
      (chunks.find? (fun c =>
        decide (c.page_start ≤ page_number ∧ page_number ≤ c.page_end))).elim
        (-1) (fun c => c.chunk_number) := by
  induction chunks with
  | nil => rfl
  | cons c rest ih =>
    by_cases h : c.page_start ≤ page_number ∧ page_number ≤ c.page_end
    · simp [map_page_to_chunk, List.find?, h]
    · simp only [map_page_to_chunk, List.find?, h]
      simp only [decide_eq_true_eq, h, if_false]
      simpa [h] using ih

/- ### Claim C4 : degenerate attribution cases -/

/-- C4.  With zero papers `find_all_overlapping_papers` returns the empty
list and `find_matching_paper` returns `none`; with exactly one paper the
overlap list is exactly that paper and the primary is that paper (its id),
regardless of the chunk's and the paper's page numbers. -/
theorem C4_attribution_degenerate :
    (∀ chunk_info : ChunkInfo,
      find_all_overlapping_papers chunk_info [] = [] ∧
      find_matching_paper chunk_info [] = none) ∧
    (∀ (chunk_info : ChunkInfo) (p : Paper),
      find_all_overlapping_papers chunk_info [p] = [p] ∧
      find_matching_paper chunk_info [p] = p.id) := by
  exact ⟨fun _ => ⟨rfl, rfl⟩, fun _ _ => ⟨rfl, rfl⟩⟩

/- ### Claim C9 : PDF validation -/

/-- C9.  `validate_pdf` returns a page count only when the PDF structure
opens and (when a first page exists) the first page's content is readable;
any structural error yields the corrupt-document outcome `none`, never a
partial success.  Both the document/validator.py variant and the
document_processor.py variant satisfy this. -/
theorem C9_validate_pdf :
    (∀ (m : PdfModel) (n : Nat), validate_pdf m = some n →
      m.parse = .ok n ∧ (0 < n → ∃ t, m.extract_first = .ok t)) ∧
    (∀ (m : PdfModel) (e : String), m.parse = .error e → validate_pdf m = none) ∧
    (∀ (m : PdfModel) (n : Nat) (e : String), m.parse = .ok n → 0 < n →
      m.extract_first = .error e → validate_pdf m = none) ∧
    (∀ (m : PdfModel) (n : Nat), validate_pdf_unconditional m = some n →
      m.parse = .ok n ∧ 0 < n ∧ ∃ t, m.extract_first = .ok t) ∧
    (∀ (m : PdfModel) (e : String), m.parse = .error e →
      validate_pdf_unconditional m = none) := by
  refine ⟨?_, ?_, ?_, ?_, ?_⟩
  · intro m n h
    unfold validate_pdf at h
    rcases hp : m.parse with e | pc <;> rw [hp] at h
    · cases h
    · by_cases h0 : 0 < pc
      · rcases hx : m.extract_first with e' | t <;> rw [hx] at h <;> simp [h0] at h
        · subst h
          exact ⟨rfl, fun _ => ⟨t, rfl⟩⟩
      · simp [h0] at h
        subst h
        exact ⟨rfl, fun hc => absurd hc h0⟩
  · intro m e h
    simp [validate_pdf, h]
  · intro m n e hp h0 hx
    simp [validate_pdf, hp, h0, hx]
  · intro m n h
    unfold validate_pdf_unconditional at h
    rcases hp : m.parse with e | pc <;> rw [hp] at h
    · cases h
    · by_cases h0 : 0 < pc
      · rcases hx : m.extract_first with e' | t <;> rw [hx] at h <;> simp [h0] at h
        · subst h
          exact ⟨rfl, h0, t, rfl⟩
      · simp [h0] at h
  · intro m e h
    simp [validate_pdf_unconditional, h]

/-- Witness for C9 at a concrete well-formed PDF model. -/
theorem C9_validate_pdf_witness :
    PdfModel.parse ⟨.ok 3, .ok "page one text"⟩ = .ok 3 ∧
    (0 < 3 → ∃ t, PdfModel.extract_first ⟨.ok 3, .ok "page one text"⟩ = .ok t) :=
  C9_validate_pdf.1 ⟨.ok 3, .ok "page one text"⟩ 3 rfl

/- ### Claim C3 : primary attribution for two or more papers -/

/-- Bridging fact: the overlap test the code performs is exactly
`1 ≤ overlapLen`. -/
theorem paperOverlaps_iff (chunk_info : ChunkInfo) (p : Paper) :
    paperOverlaps chunk_info p = true ↔ 1 ≤ overlapLen chunk_info p := by
  unfold paperOverlaps overlapLen
  constructor
  · intro h
    have := of_decide_eq_true h
    omega
  · intro h
    exact decide_eq_true (by omega)

/-- The step of the specification-side first-maximum selection. -/
def specStep (chunk_info : ChunkInfo) (best : Option Paper) (p : Paper) : Option Paper :=
  match best with
  | none => some p
  | some b =>
    if overlapLen chunk_info b < overlapLen chunk_info p then some p else best

/-- The code's fold (carrying the running maximum explicitly) agrees with
the specification's fold over the filtered list of overlapping papers,
provided the accumulator is coherent. -/
theorem matchStep_fold (chunk_info : ChunkInfo) :
    ∀ (l : List Paper) (acc : Option Paper × Int),
      (acc = (none, 0) ∨
        ∃ b, acc.1 = some b ∧ acc.2 = overlapLen chunk_info b ∧
          1 ≤ overlapLen chunk_info b) →
      (l.foldl (matchStep chunk_info) acc).1 =
        (l.filter (fun p => 1 ≤ overlapLen chunk_info p)).foldl
          (specStep chunk_info) acc.1 := by
  intro l
  induction l with
  | nil => intro acc hacc; rfl
  | cons p t ih =>
    intro acc hacc
    by_cases ho : 1 ≤ overlapLen chunk_info p
    · have hcond : max chunk_info.page_start (paperStart p) ≤
          min chunk_info.page_end (paperEnd p) := by
        unfold overlapLen at ho; omega
      rcases hacc with h0 | ⟨b, hb1, hb2, hb3⟩
      · subst h0
        have hstep : matchStep chunk_info (none, 0) p =
            (some p, overlapLen chunk_info p) := by
          unfold matchStep overlapLen at *
          simp only [hcond, if_true]
          rw [if_pos (by omega)]
        rw [List.foldl_cons, hstep, List.filter_cons_of_pos (by simpa using ho),
          List.foldl_cons]
        exact ih _ (Or.inr ⟨p, rfl, rfl, ho⟩)
      · obtain ⟨b', hb⟩ : ∃ b', acc = (some b, b') := ⟨acc.2, by rw [← hb1]⟩
        subst hb
        simp only at hb2
        by_cases hlt : overlapLen chunk_info b < overlapLen chunk_info p
        · have hstep : matchStep chunk_info (some b, overlapLen chunk_info b) p =
              (some p, overlapLen chunk_info p) := by
            unfold matchStep overlapLen at *
            simp only [hcond, if_true]
            rw [if_pos (by omega)]
          rw [List.foldl_cons, hb2, hstep,
            List.filter_cons_of_pos (by simpa using ho), List.foldl_cons]
          have : specStep chunk_info (some b) p = some p := by
            simp [specStep, hlt]
          rw [this]
          exact ih _ (Or.inr ⟨p, rfl, rfl, ho⟩)
        · have hstep : matchStep chunk_info (some b, overlapLen chunk_info b) p =
              (some b, overlapLen chunk_info b) := by
            unfold matchStep overlapLen at *
            simp only [hcond, if_true]
            rw [if_neg (by omega)]
          rw [List.foldl_cons, hb2, hstep,
            List.filter_cons_of_pos (by simpa using ho), List.foldl_cons]
          have : specStep chunk_info (some b) p = some b := by
            simp [specStep, hlt]
          rw [this]
          exact ih _ (Or.inr ⟨b, rfl, rfl, hb3⟩)
    · have hcond : ¬ max chunk_info.page_start (paperStart p) ≤
          min chunk_info.page_end (paperEnd p) := by
        unfold overlapLen at ho; omega
      have hstep : ∀ acc, matchStep chunk_info acc p = acc := by
        intro acc
        unfold matchStep
        simp only [hcond, if_false]
      rw [List.foldl_cons, hstep, List.filter_cons_of_neg (by simpa using ho)]
      exact ih _ hacc

/-- C3.  For every chunk page range and every list of two or more papers,
the code counts a paper as overlapping iff
`overlapLen = min(chunkEnd, paperEnd) - max(chunkStart, paperStart) + 1`
(missing bounds clamped to 0 / 9999) is at least 1, and
`find_matching_paper` returns (the id of) the overlapping paper with the
largest `overlapLen`, keeping the first paper in input order on ties. -/
theorem C3_find_matching_paper (chunk_info : ChunkInfo) (papers : List Paper)
    (h2 : 2 ≤ papers.length) :
    find_all_overlapping_papers chunk_info papers =
      papers.filter (fun p => 1 ≤ overlapLen chunk_info p) ∧
    find_matching_paper chunk_info papers =
      (findPrimarySpec chunk_info papers).bind Paper.id := by
  obtain ⟨a, b, t, rfl⟩ : ∃ a b t, papers = a :: b :: t := by
    match papers, h2 with
    | a :: b :: t, _ => exact ⟨a, b, t, rfl⟩
  constructor
  · show List.filter _ _ = _
    apply List.filter_congr
    intro p _
    by_cases hp : 1 ≤ overlapLen chunk_info p
    · rw [(paperOverlaps_iff chunk_info p).mpr hp, decide_eq_true hp]
    · have h1 : paperOverlaps chunk_info p = false := by
        rw [Bool.eq_false_iff]
        intro hc
        exact hp ((paperOverlaps_iff chunk_info p).mp hc)
      rw [h1, decide_eq_false hp]
  · have hdef : find_matching_paper chunk_info (a :: b :: t) =
        ((a :: b :: t).foldl (matchStep chunk_info) (none, 0)).1.bind Paper.id := rfl
    rw [hdef, matchStep_fold chunk_info (a :: b :: t) (none, 0) (Or.inl rfl)]
    rfl

/-- Witness for C3: the specification's own end-to-end example (papers at
pages 1 to 10 and 11 to 20, chunk at pages 9 to 16) — the second paper wins
with overlap length 6 against 2. -/
theorem C3_find_matching_paper_witness :
    find_all_overlapping_papers
        { chunk_number := 2, page_start := 9, page_end := 16, text_content := "q" }
        [{ id := some "paper1", start_page_estimate := some 1, end_page_estimate := some 10 },
         { id := some "paper2", start_page_estimate := some 11, end_page_estimate := some 20 }] =
      List.filter (fun p => 1 ≤ overlapLen
        { chunk_number := 2, page_start := 9, page_end := 16, text_content := "q" } p)
        [{ id := some "paper1", start_page_estimate := some 1, end_page_estimate := some 10 },
         { id := some "paper2", start_page_estimate := some 11, end_page_estimate := some 20 }] ∧
    find_matching_paper
        { chunk_number := 2, page_start := 9, page_end := 16, text_content := "q" }
        [{ id := some "paper1", start_page_estimate := some 1, end_page_estimate := some 10 },
         { id := some "paper2", start_page_estimate := some 11, end_page_estimate := some 20 }] =
      (findPrimarySpec
        { chunk_number := 2, page_start := 9, page_end := 16, text_content := "q" }
        [{ id := some "paper1", start_page_estimate := some 1, end_page_estimate := some 10 },
         { id := some "paper2", start_page_estimate := some 11, end_page_estimate := some 20 }]).bind
        Paper.id :=
  C3_find_matching_paper _ _ (by decide)

/- ### Claim C5 : page-window splitting -/

/-- Closed form of the splitting loop: starting at `start_page` with step
`step_pred + 1`, the loop emits one chunk per window of the remaining
pages. -/
theorem splitLoop_eq_aux (step_pred total : Nat) :
    ∀ (d start num : Nat), total - start ≤ d →
      splitLoop total step_pred start num =
        (List.range ((total - start + step_pred) / (step_pred + 1))).map
          (fun i =>
            { chunk_number := num + i,
              page_start := start + i * (step_pred + 1) + 1,
              page_end := min (start + (i + 1) * (step_pred + 1)) total }) := by
  intro d
  induction d with
  | zero =>
    intro start num hle
    have h1 : ¬ start < total := by omega
    rw [splitLoop, dif_neg h1]
    have h2 : total - start = 0 := by omega
    rw [h2, Nat.zero_add, Nat.div_eq_of_lt (by omega)]
    rfl
  | succ d ih =>
    intro start num hle
    by_cases h : start < total
    · rw [splitLoop, dif_pos h]
      rw [ih (start + (step_pred + 1)) (num + 1) (by omega)]
      have hn : (total - start + step_pred) / (step_pred + 1)
          = (total - (start + (step_pred + 1)) + step_pred) / (step_pred + 1) + 1 := by
        rcases le_or_lt (step_pred + 1) (total - start) with hge | hlt
        · have heq : total - start + step_pred
              = (total - (start + (step_pred + 1)) + step_pred) + (step_pred + 1) := by
            omega
          rw [heq, Nat.add_div_right _ (Nat.succ_pos _)]
        · have h1 : total - (start + (step_pred + 1)) = 0 := by omega
          have h2 : total - start + step_pred
              = (total - start - 1) + 1 * (step_pred + 1) := by omega
          rw [h1, h2, Nat.add_mul_div_right _ _ (Nat.succ_pos _),
            Nat.div_eq_of_lt (by omega), Nat.zero_add,
            Nat.div_eq_of_lt (by omega)]
      rw [hn, List.range_succ_eq_map, List.map_cons, List.map_map]
      dsimp only
      congr 1
      · simp
      · apply List.map_congr_left
        intro a ha
        simp only [Function.comp_apply, PageChunk.mk.injEq, Nat.succ_eq_add_one]
        refine ⟨by omega, by ring, ?_⟩
        congr 1
        ring
    · rw [splitLoop, dif_neg h]
      have h2 : total - start = 0 := by omega
      rw [h2, Nat.zero_add, Nat.div_eq_of_lt (by omega)]
      rfl

/-- Closed form of `split_pdf` for a non-empty document and a positive
window size: one chunk per window of `pages_per_chunk` pages, the last
window clipped to the page count. -/
theorem split_pdf_eq (p k : Nat) (hp : 1 ≤ p) (hk : 1 ≤ k) :
    split_pdf p k = (List.range ((p + k - 1) / k)).map
      (fun i =>
        { chunk_number := i + 1, page_start := i * k + 1,
          page_end := min ((i + 1) * k) p }) := by
  unfold split_pdf
  by_cases hpk : p ≤ k
  · rw [if_pos hpk]
    have hC : (p + k - 1) / k = 1 := by
      rw [show p + k - 1 = (p - 1) + 1 * k by omega,
        Nat.add_mul_div_right _ _ (by omega), Nat.div_eq_of_lt (by omega)]
    rw [hC, show List.range 1 = [0] from rfl, List.map_cons, List.map_nil]
    simp [min_eq_right hpk]
  · rw [if_neg hpk]
    rw [splitLoop_eq_aux (k - 1) p (p - 0) 0 1 (Nat.le_refl _)]
    have hk1 : k - 1 + 1 = k := by omega
    rw [hk1, show p - 0 + (k - 1) = p + k - 1 by omega]
    apply List.map_congr_left
    intro i hi
    simp only [PageChunk.mk.injEq]
    exact ⟨by omega, by simp, by simp⟩

/-- C5.  For every PDF with at least one page and every positive
`pages_per_chunk`, `split_pdf` produces exactly `ceil(p / k)` chunks whose
1-indexed page ranges partition `[1, p]` with no gaps or overlaps, numbered
`1 .. ceil(p / k)` in page order; when `p ≤ k` the result is the single
chunk `1 .. p` with chunk number 1, and every window except possibly the
last spans exactly `k` pages. -/
theorem C5_split_pdf (p k : Nat) (hp : 1 ≤ p) (hk : 1 ≤ k) :
    (split_pdf p k).length = (p + k - 1) / k ∧
    (∀ (i : Nat) (hi : i < (split_pdf p k).length),
      ((split_pdf p k).get ⟨i, hi⟩).chunk_number = i + 1 ∧
      ((split_pdf p k).get ⟨i, hi⟩).page_start = i * k + 1 ∧
      ((split_pdf p k).get ⟨i, hi⟩).page_end = min ((i + 1) * k) p) ∧
    (∀ page : Nat, (1 ≤ page ∧ page ≤ p) ↔
      ∃ c ∈ split_pdf p k, c.page_start ≤ page ∧ page ≤ c.page_end) ∧
    (∀ (i j : Nat) (hi : i < (split_pdf p k).length)
        (hj : j < (split_pdf p k).length), i < j →
      ((split_pdf p k).get ⟨i, hi⟩).page_end <
        ((split_pdf p k).get ⟨j, hj⟩).page_start) ∧
    (∀ (i : Nat) (hi : i < (split_pdf p k).length)
        (hi1 : i + 1 < (split_pdf p k).length),
      ((split_pdf p k).get ⟨i + 1, hi1⟩).page_start =
        ((split_pdf p k).get ⟨i, hi⟩).page_end + 1 ∧
      ((split_pdf p k).get ⟨i, hi⟩).page_end -
        ((split_pdf p k).get ⟨i, hi⟩).page_start + 1 = k) ∧
    (p ≤ k → split_pdf p k = [{ chunk_number := 1, page_start := 1, page_end := p }]) := by
  have he := split_pdf_eq p k hp hk
  have hlen : (split_pdf p k).length = (p + k - 1) / k := by
    rw [he, List.length_map, List.length_range]
  have hget : ∀ (i : Nat) (hi : i < (split_pdf p k).length),
      (split_pdf p k).get ⟨i, hi⟩ =
        { chunk_number := i + 1, page_start := i * k + 1,
          page_end := min ((i + 1) * k) p } := by
    intro i hi
    have hi' : i < (p + k - 1) / k := hlen ▸ hi
    rw [List.get_of_eq he]
    simp [List.getElem_map, List.getElem_range]
  have hCform : (p + k - 1) / k = (p - 1) / k + 1 := by
    rw [show p + k - 1 = (p - 1) + k by omega, Nat.add_div_right _ (by omega)]
  have hfit : ∀ i : Nat, i + 1 < (p + k - 1) / k → (i + 1) * k ≤ p := by
    intro i hi
    have h1 : i + 1 ≤ (p - 1) / k := by omega
    have h2 : (i + 1) * k ≤ (p - 1) / k * k :=
      Nat.mul_le_mul_right k h1
    have h3 : (p - 1) / k * k ≤ p - 1 := Nat.div_mul_le_self _ _
    omega
  refine ⟨hlen, ?_, ?_, ?_, ?_, ?_⟩
  · intro i hi
    rw [hget i hi]
    exact ⟨rfl, rfl, rfl⟩
  · intro page
    constructor
    · rintro ⟨h1, h2⟩
      rw [he]
      simp only [List.mem_map, List.mem_range]
      refine ⟨_, ⟨(page - 1) / k, ?_, rfl⟩, ?_, ?_⟩
      · have hd1 : (page - 1) / k ≤ (p - 1) / k :=
          Nat.div_le_div_right (by omega)
        omega
      · have := Nat.div_mul_le_self (page - 1) k
        simp only []
        omega
      · simp only []
        have hmod := Nat.div_add_mod (page - 1) k
        have hmlt : (page - 1) % k < k := Nat.mod_lt _ (by omega)
        have hlt : page - 1 < ((page - 1) / k + 1) * k := by
          rw [Nat.add_mul, Nat.one_mul]
          calc page - 1 = k * ((page - 1) / k) + (page - 1) % k := hmod.symm
            _ < k * ((page - 1) / k) + k := by omega
            _ = (page - 1) / k * k + k := by rw [Nat.mul_comm]
        exact le_min (by omega) h2
    · rintro ⟨c, hc, hs, hend⟩
      rw [he] at hc
      simp only [List.mem_map, List.mem_range] at hc
      obtain ⟨i, hi, rfl⟩ := hc
      simp only [] at hs hend
      have hmin : min ((i + 1) * k) p ≤ p := Nat.min_le_right _ _
      exact ⟨by omega, by omega⟩
  · intro i j hi hj hij
    rw [hget i hi, hget j hj]
    simp only []
    have h1 : (i + 1) * k ≤ j * k := Nat.mul_le_mul_right k (by omega)
    have h2 : min ((i + 1) * k) p ≤ (i + 1) * k := Nat.min_le_left _ _
    omega
  · intro i hi hi1
    have hfit' : (i + 1) * k ≤ p := hfit i (hlen ▸ hi1)
    rw [hget i hi, hget (i + 1) hi1]
    simp only []
    rw [Nat.min_eq_left hfit']
    constructor
    · rfl
    · have hsucc : (i + 1) * k = i * k + k := Nat.succ_mul i k
      generalize i * k = m at hsucc ⊢
      omega
  · intro hpk
    unfold split_pdf
    rw [if_pos hpk]

/-- Witness for C5 at the specification's end-to-end example: a 20-page
document with 8 pages per chunk yields ceil(20 / 8) = 3 chunks. -/
theorem C5_split_pdf_witness :
    (split_pdf 20 8).length = (20 + 8 - 1) / 8 ∧
    split_pdf 20 8 =
      [{ chunk_number := 1, page_start := 1, page_end := 8 },
       { chunk_number := 2, page_start := 9, page_end := 16 },
       { chunk_number := 3, page_start := 17, page_end := 20 }] :=
  ⟨(C5_split_pdf 20 8 (by decide) (by decide)).1,
    by rw [split_pdf_eq 20 8 (by decide) (by decide)]; decide⟩

/- ### rag/src/clients/gemini_client.py : generate_content_with_retry -/

/-- Substring containment on character lists, modelling the Python
`needle in error_str` test. -/
def strContains (hay needle : List Char) : Bool :=
  match hay with
  | [] => needle.isEmpty
  | _ :: t => needle.isPrefixOf hay || strContains t needle

/-- The transient-error test of `generate_content_with_retry`:
the stringified exception mentions 503, UNAVAILABLE or 429. -/
def is_transient (e : String) : Bool :=
  strContains e.toList ("503".toList) ||
    strContains e.toList ("UNAVAILABLE".toList) ||
    strContains e.toList ("429".toList)

/-- Observable behaviour of one run of the retry wrapper: the returned or
raised outcome (`none` models the implicit `None` fall-through when
`retries = 0`), the number of calls issued to the wrapped client, and the
sequence of sleep durations (delay plus jitter, in order). -/
structure RetryResult (α : Type) where
  outcome : Option (Except String α)
  calls : Nat
  sleeps : List ℚ

/-- The `for attempt in range(retries)` loop of
`generate_content_with_retry` (rag/src/clients/gemini_client.py; the copy
in rag/src/document_processor.py is identical): the wrapped call for each
attempt is the oracle `call`, and `random.uniform(0, 1)` is the oracle
`jitter`.  On success return; on a transient error sleep
`delay + jitter` and double the delay, unless this was the final attempt,
in which case the error is re-raised; on any other error re-raise at
once. -/
def retryLoop {α : Type} (call : Nat → Except String α) (jitter : Nat → ℚ)
    (retries : Nat) (attempt : Nat) (delay : ℚ) : RetryResult α :=
  if h : attempt < retries then
    match call attempt with
    | .ok v => { outcome := some (.ok v), calls := 1, sleeps := [] }
    | .error e =>
      if is_transient e then
        if attempt = retries - 1 then
          { outcome := some (.error e), calls := 1, sleeps := [] }
        else
          let wait_time := delay + jitter attempt
          let rest := retryLoop call jitter retries (attempt + 1) (delay * 2)
          { outcome := rest.outcome, calls := rest.calls + 1,
            sleeps := wait_time :: rest.sleeps }
      else
        { outcome := some (.error e), calls := 1, sleeps := [] }
  else
    { outcome := none, calls := 0, sleeps := [] }
termination_by retries - attempt
decreasing_by omega

/-- Model of `generate_content_with_retry`: run the attempt loop from
attempt 0 with the configured initial delay. -/
def generate_content_with_retry {α : Type} (call : Nat → Except String α)
    (jitter : Nat → ℚ) (retries : Nat) (initial_delay : ℚ) : RetryResult α :=
  retryLoop call jitter retries 0 initial_delay

/-- Exhaustion lemma: when every attempt fails with a transient error, the
loop issues exactly the remaining number of calls, sleeps once per retry
with the delay doubling from its current value (plus the jitter stream),
and re-raises the error of the final attempt. -/
theorem retryLoop_exhaust {α : Type} (call : Nat → Except String α)
    (jitter : Nat → ℚ) (retries : Nat) (errs : Nat → String)
    (hcall : ∀ k, k < retries → call k = .error (errs k))
    (htrans : ∀ k, k < retries → is_transient (errs k) = true) :
    ∀ (fuel attempt : Nat) (d : ℚ), retries - attempt = fuel → attempt < retries →
      retryLoop call jitter retries attempt d =
        { outcome := some (.error (errs (retries - 1))),
          calls := retries - attempt,
          sleeps := (List.range (retries - 1 - attempt)).map
            (fun k => d * 2 ^ k + jitter (attempt + k)) } := by
  intro fuel
  induction fuel with
  | zero =>
    intro attempt d hfuel hlt
    omega
  | succ fuel ih =>
    intro attempt d hfuel hlt
    rw [retryLoop, dif_pos hlt, hcall attempt hlt]
    simp only [htrans attempt hlt, if_true]
    by_cases hlast : attempt = retries - 1
    · rw [if_pos hlast]
      have h2 : retries - 1 - attempt = 0 := by omega
      simp only [RetryResult.mk.injEq]
      exact ⟨by rw [hlast], by omega, by rw [h2]; rfl⟩
    · rw [if_neg hlast]
      rw [ih (attempt + 1) (d * 2) (by omega) (by omega)]
      simp only [RetryResult.mk.injEq]
      refine ⟨trivial, by omega, ?_⟩
      have hm : retries - 1 - attempt = (retries - 1 - (attempt + 1)) + 1 := by omega
      rw [hm, List.range_succ_eq_map, List.map_cons, List.map_map]
      refine congrArg₂ _ (by simp) ?_
      apply List.map_congr_left
      intro k hk
      simp only [Function.comp_apply, Nat.succ_eq_add_one]
      have h1 : attempt + 1 + k = attempt + (k + 1) := by omega
      rw [h1, pow_succ]
      ring

/-- Success lemma: when the first `m` attempts fail with transient errors
and attempt `m` succeeds (within the bound), the loop returns the success
after `m` sleeps with doubling delays. -/
theorem retryLoop_success {α : Type} (call : Nat → Except String α)
    (jitter : Nat → ℚ) (retries : Nat) (errs : Nat → String) (m : Nat) (v : α)
    (hm : m < retries)
    (hcall : ∀ k, k < m → call k = .error (errs k))
    (htrans : ∀ k, k < m → is_transient (errs k) = true)
    (hok : call m = .ok v) :
    ∀ (fuel attempt : Nat) (d : ℚ), m - attempt = fuel → attempt ≤ m →
      retryLoop call jitter retries attempt d =
        { outcome := some (.ok v), calls := m - attempt + 1,
          sleeps := (List.range (m - attempt)).map
            (fun k => d * 2 ^ k + jitter (attempt + k)) } := by
  intro fuel
  induction fuel with
  | zero =>
    intro attempt d hfuel hle
    have ham : attempt = m := by omega
    subst ham
    rw [retryLoop, dif_pos (by omega), hok]
    simp only [RetryResult.mk.injEq]
    exact ⟨trivial, by omega, by rw [Nat.sub_self]; rfl⟩
  | succ fuel ih =>
    intro attempt d hfuel hle
    have hlt : attempt < m := by omega
    rw [retryLoop, dif_pos (by omega), hcall attempt hlt]
    simp only [htrans attempt hlt, if_true]
    rw [if_neg (by omega : ¬ attempt = retries - 1)]
    rw [ih (attempt + 1) (d * 2) (by omega) (by omega)]
    simp only [RetryResult.mk.injEq]
    refine ⟨trivial, by omega, ?_⟩
    have hm2 : m - attempt = (m - (attempt + 1)) + 1 := by omega
    rw [hm2, List.range_succ_eq_map, List.map_cons, List.map_map]
    refine congrArg₂ _ (by simp) ?_
    apply List.map_congr_left
    intro k hk
    simp only [Function.comp_apply, Nat.succ_eq_add_one]
    have h1 : attempt + 1 + k = attempt + (k + 1) := by omega
    rw [h1, pow_succ]
    ring

/- ### Claim C8 : external retry policy -/

/-- C8.  For every call wrapped by `generate_content_with_retry`:
a non-transient error on the first attempt is re-raised immediately after a
single call, with no sleep; if every attempt up to the fixed bound
`retries` fails transiently, exactly `retries` calls are issued, the
sleeps are `initial_delay * 2 ^ k + jitter k` (delay doubling each attempt
plus jitter), and the last error is re-raised; and a success at attempt
`m < retries` after transient failures is returned after `m + 1` calls
with the same doubling sleep schedule. -/
theorem C8_generate_content_with_retry {α : Type} (call : Nat → Except String α)
    (jitter : Nat → ℚ) (retries : Nat) (initial_delay : ℚ) :
    (∀ e : String, 1 ≤ retries → call 0 = .error e → is_transient e = false →
      generate_content_with_retry call jitter retries initial_delay =
        { outcome := some (.error e), calls := 1, sleeps := [] }) ∧
    (∀ errs : Nat → String, 1 ≤ retries →
      (∀ k, k < retries → call k = .error (errs k)) →
      (∀ k, k < retries → is_transient (errs k) = true) →
      generate_content_with_retry call jitter retries initial_delay =
        { outcome := some (.error (errs (retries - 1))), calls := retries,
          sleeps := (List.range (retries - 1)).map
            (fun k => initial_delay * 2 ^ k + jitter k) }) ∧
    (∀ (errs : Nat → String) (m : Nat) (v : α), m < retries →
      (∀ k, k < m → call k = .error (errs k)) →
      (∀ k, k < m → is_transient (errs k) = true) →
      call m = .ok v →
      generate_content_with_retry call jitter retries initial_delay =
        { outcome := some (.ok v), calls := m + 1,
          sleeps := (List.range m).map
            (fun k => initial_delay * 2 ^ k + jitter k) }) := by
  refine ⟨?_, ?_, ?_⟩
  · intro e hr hcall0 hnt
    unfold generate_content_with_retry
    rw [retryLoop, dif_pos (by omega), hcall0]
    simp only [hnt, Bool.false_eq_true, if_false]
  · intro errs hr hcall htrans
    unfold generate_content_with_retry
    rw [retryLoop_exhaust call jitter retries errs hcall htrans retries 0
      initial_delay (by omega) (by omega)]
    simp only [RetryResult.mk.injEq, Nat.sub_zero]
    refine ⟨trivial, trivial, ?_⟩
    apply List.map_congr_left
    intro k hk
    rw [Nat.zero_add]
  · intro errs m v hm hcall htrans hok
    unfold generate_content_with_retry
    rw [retryLoop_success call jitter retries errs m v hm hcall htrans hok m 0
      initial_delay (by omega) (by omega)]
    simp only [RetryResult.mk.injEq, Nat.sub_zero]
    refine ⟨trivial, trivial, ?_⟩
    apply List.map_congr_left
    intro k hk
    rw [Nat.zero_add]

/-- Witness for C8: three attempts all hitting a 503/UNAVAILABLE error —
three calls are issued, two doubling sleeps are taken, and the last error
is re-raised. -/
theorem C8_generate_content_with_retry_witness :
    generate_content_with_retry
        (fun _ => (Except.error "503 UNAVAILABLE" : Except String Unit))
        (fun _ => (0 : ℚ)) 3 2 =
      { outcome := some (.error "503 UNAVAILABLE"), calls := 3,
        sleeps := (List.range (3 - 1)).map
          (fun k => (2 : ℚ) * 2 ^ k + (fun _ => (0 : ℚ)) k) } :=
  (C8_generate_content_with_retry
      (fun _ => (Except.error "503 UNAVAILABLE" : Except String Unit))
      (fun _ => (0 : ℚ)) 3 2).2.1
    (fun _ => "503 UNAVAILABLE") (by decide) (fun k _ => rfl)
    (fun k _ => (by decide : is_transient "503 UNAVAILABLE" = true))

/- ### rag/src/document_ingest.py : ingestion job state machine -/

/-- Externally visible actions the per-source pipeline performs, in
program order.  They record which collaborator calls happen (download /
validation / hashing / PDF page-splitting inside `process_document`, then
Gemini text extraction, paper detection, Postgres writes, embedding and
Qdrant upserts), so that short-circuiting claims can be read off a run's
action log. -/
inductive PipelineAction where
  | download
  | validate
  | computeHash (sha : String)
  | splitPdf (sha : String)
  | extractText (chunk_number : Nat)
  | detectPapers
  | saveDocument (sha : String)
  | savePapers (sha : String)
  | linkUser (user_id sha : String)
  | embed (chunk_number : Nat)
  | upsertVector (chunk_number : Nat) (paper_ids : List String)
  | saveChunk (chunk_number : Nat) (paper_ids : List String)
deriving DecidableEq, Repr

/-- Oracle describing what happens to one source of a job: the download
fails, the PDF is corrupt, the source materialises into content with the
given hash / page chunks / detected papers, or an unexpected exception is
raised inside the per-source body (and caught at its boundary). -/
inductive SourceSpec where
  | downloadFailed (msg : String)
  | corrupt (msg : String)
  | materialized (sha : String) (chunks : List ChunkInfo) (papers : List Paper)
  | raised (msg : String)
deriving DecidableEq, Repr

/-- The relational store as the pipeline sees it: the `documents` table
keyed by `sha256_hash`, and the `user_documents` many-to-many table keyed
by `(user_id, document_sha256)`. -/
structure DbState where
  documents : List String
  user_documents : List (String × String)
deriving DecidableEq, Repr

/-- One job's entry of the in-memory `_job_status` map. -/
structure JobState where
  status : String
  processed : Nat
  successful : Nat
  failed : Nat
  duplicates : Nat
  errors : List String
  documents : List String
deriving DecidableEq, Repr

/-- Model of `create_job`: the fresh per-job counters. -/
def create_job_state : JobState :=
  { status := "processing", processed := 0, successful := 0, failed := 0,
    duplicates := 0, errors := [], documents := [] }

/-- The `INSERT ... ON CONFLICT (sha256_hash) DO UPDATE` of
`save_document_metadata`: the row set gains at most one row per content
hash, an existing row is updated in place. -/
def insertDocumentRow (docs : List String) (sha : String) : List String :=
  if sha ∈ docs then docs else docs ++ [sha]

/-- The `INSERT ... ON CONFLICT (user_id, document_sha256) DO NOTHING` of
`link_document_to_user` and `save_document_metadata`: the idempotent
user-document edge insert. -/
def insertUserLink (links : List (String × String)) (user_id sha : String) :
    List (String × String) :=
  if (user_id, sha) ∈ links then links else links ++ [(user_id, sha)]

/-- The usable-text test of the extraction loop:
`if text and len(text) >= 50`. -/
def usableText (c : ChunkInfo) : Bool :=
  decide (c.text_content ≠ "" ∧ 50 ≤ c.text_content.length)

/-- Model of the body of the `for idx, source in enumerate(sources)` loop
of `ingest_documents_async` (rag/src/document_ingest.py), including the
per-source `try/except` and the `process_document` preprocessing
(download, validation, hashing and page-splitting — note these run
*before* the duplicate check).  State is `(database, job entry, action
log)`. -/
def process_source (user_id : String) (st : DbState × JobState × List PipelineAction)
    (src : SourceSpec) : DbState × JobState × List PipelineAction :=
  let db := st.1
  let job := st.2.1
  let log := st.2.2
  match src with
  | .downloadFailed msg =>
    (db,
      { job with
          processed := job.processed + 1
          failed := job.failed + 1
          errors := job.errors ++ [msg] },
      log ++ [.download])
  | .corrupt msg =>
    (db,
      { job with
          processed := job.processed + 1
          failed := job.failed + 1
          errors := job.errors ++ [msg] },
      log ++ [.download, .validate])
  | .raised msg =>
    (db,
      { job with
          processed := job.processed + 1
          failed := job.failed + 1
          errors := job.errors ++ [msg] },
      log)
  | .materialized sha chunks papers =>
    let log := log ++ [.download, .validate, .computeHash sha, .splitPdf sha]
    if sha ∈ db.documents then
      ({ db with user_documents := insertUserLink db.user_documents user_id sha },
        { job with
            processed := job.processed + 1
            successful := job.successful + 1
            duplicates := job.duplicates + 1
            documents := job.documents ++ [sha] },
        log ++ [.linkUser user_id sha])
    else
      let extract_log := chunks.map (fun c => PipelineAction.extractText c.chunk_number)
      let extracted_chunks := chunks.filter usableText
      let db' :=
        { db with
            documents := insertDocumentRow db.documents sha
            user_documents := insertUserLink db.user_documents user_id sha }
      let chunk_log := extracted_chunks.flatMap (fun c =>
        [PipelineAction.embed c.chunk_number,
         PipelineAction.upsertVector c.chunk_number
           ((find_all_overlapping_papers c papers).filterMap Paper.id)])
      let save_log := extracted_chunks.map (fun c =>
        PipelineAction.saveChunk c.chunk_number
          ((find_all_overlapping_papers c papers).filterMap Paper.id))
      if extracted_chunks.isEmpty then
        (db',
          { job with
              processed := job.processed + 1
              failed := job.failed + 1
              errors := job.errors ++ ["No chunks processed successfully"] },
          log ++ extract_log ++ [.detectPapers, .saveDocument sha, .savePapers sha])
      else
        (db',
          { job with
              processed := job.processed + 1
              successful := job.successful + 1
              documents := job.documents ++ [sha] },
          log ++ extract_log ++ [.detectPapers, .saveDocument sha, .savePapers sha]
            ++ chunk_log ++ save_log)

/-- Model of `ingest_documents_async`: an exception escaping the
per-source boundary (modelled by `setup_error`, e.g. from
`ensure_collection`) marks the job `failed`; otherwise every source is
processed in order by the loop and the job ends `completed`. -/
def ingest_documents_async (user_id : String) (sources : List SourceSpec)
    (setup_error : Option String) (db : DbState) (job : JobState) :
    DbState × JobState × List PipelineAction :=
  match setup_error with
  | some e =>
    (db,
      { job with
          status := "failed"
          errors := job.errors ++ ["Job error: " ++ e] },
      [])
  | none =>
    let res := sources.foldl (process_source user_id) (db, job, [])
    (res.1, { res.2.1 with status := "completed" }, res.2.2)

/-- Every per-source outcome advances `processed` by exactly one,
whatever the outcome and whatever the state. -/
theorem process_source_processed (user_id : String)
    (st : DbState × JobState × List PipelineAction) (src : SourceSpec) :
    (process_source user_id st src).2.1.processed = st.2.1.processed + 1 := by
  rcases src with msg | msg | ⟨sha, chunks, papers⟩ | msg
  · rfl
  · rfl
  · simp only [process_source]
    split_ifs <;> rfl
  · rfl

/-- A per-source step only ever appends to the job's error list. -/
theorem process_source_errors_mono (user_id : String)
    (st : DbState × JobState × List PipelineAction) (src : SourceSpec) :
    ∃ t, (process_source user_id st src).2.1.errors = st.2.1.errors ++ t := by
  rcases src with msg | msg | ⟨sha, chunks, papers⟩ | msg
  · exact ⟨[msg], rfl⟩
  · exact ⟨[msg], rfl⟩
  · simp only [process_source]
    split_ifs
    · exact ⟨[], (List.append_nil _).symm⟩
    · exact ⟨["No chunks processed successfully"], rfl⟩
    · exact ⟨[], (List.append_nil _).symm⟩
  · exact ⟨[msg], rfl⟩

/-- Folding the per-source step over a whole source list advances
`processed` by exactly the number of sources. -/
theorem foldl_process_source_processed (user_id : String) (sources : List SourceSpec) :
    ∀ st : DbState × JobState × List PipelineAction,
      (sources.foldl (process_source user_id) st).2.1.processed =
        st.2.1.processed + sources.length := by
  induction sources with
  | nil => intro st; simp
  | cons s rest ih =>
    intro st
    rw [List.foldl_cons, ih, process_source_processed]
    simp only [List.length_cons]
    omega

/-- Folding the per-source step over a whole source list only appends to
the error list. -/
theorem foldl_process_source_errors_mono (user_id : String) (sources : List SourceSpec) :
    ∀ st : DbState × JobState × List PipelineAction,
      ∃ t, (sources.foldl (process_source user_id) st).2.1.errors =
        st.2.1.errors ++ t := by
  induction sources with
  | nil => intro st; exact ⟨[], (List.append_nil _).symm⟩
  | cons s rest ih =>
    intro st
    rw [List.foldl_cons]
    obtain ⟨t1, h1⟩ := ih (process_source user_id st s)
    obtain ⟨t0, h0⟩ := process_source_errors_mono user_id st s
    exact ⟨t0 ++ t1, by rw [h1, h0, List.append_assoc]⟩

/-- An exception raised (and caught) while processing one source leaves
its message in the job's error list at the end of the loop. -/
theorem foldl_process_source_raised_mem (user_id msg : String) :
    ∀ (sources : List SourceSpec) (st : DbState × JobState × List PipelineAction),
      SourceSpec.raised msg ∈ sources →
      msg ∈ (sources.foldl (process_source user_id) st).2.1.errors := by
  intro sources
  induction sources with
  | nil => intro st h; cases h
  | cons s rest ih =>
    intro st h
    rw [List.foldl_cons]
    rcases List.mem_cons.mp h with heq | hmem
    · subst heq
      obtain ⟨t, ht⟩ :=
        foldl_process_source_errors_mono user_id rest (process_source user_id st (.raised msg))
      rw [ht]
      refine List.mem_append.mpr (Or.inl ?_)
      show msg ∈ st.2.1.errors ++ [msg]
      simp
    · exact ih (process_source user_id st s) hmem

/- ### Claim C6 : per-source error boundary -/

/-- C6.  An error arising while processing one source is caught at the
source boundary and recorded in the job's `errors` list, the remaining
sources are still attempted (`processed` always reaches the full source
count and the job ends `completed`), and only an exception escaping the
per-source boundary moves the job to `failed`. -/
theorem C6_error_boundary :
    (∀ (user_id : String) (sources : List SourceSpec) (db : DbState) (job : JobState),
      (ingest_documents_async user_id sources none db job).2.1.status = "completed" ∧
      (ingest_documents_async user_id sources none db job).2.1.processed =
        job.processed + sources.length) ∧
    (∀ (user_id msg : String) (sources : List SourceSpec) (db : DbState) (job : JobState),
      SourceSpec.raised msg ∈ sources →
      msg ∈ (ingest_documents_async user_id sources none db job).2.1.errors) ∧
    (∀ (user_id e : String) (sources : List SourceSpec) (db : DbState) (job : JobState),
      (ingest_documents_async user_id sources (some e) db job).2.1.status = "failed") := by
  refine ⟨?_, ?_, ?_⟩
  · intro user_id sources db job
    refine ⟨rfl, ?_⟩
    show (sources.foldl (process_source user_id) (db, job, [])).2.1.processed = _
    rw [foldl_process_source_processed]
  · intro user_id msg sources db job hmem
    show msg ∈ (sources.foldl (process_source user_id) (db, job, [])).2.1.errors
    exact foldl_process_source_raised_mem user_id msg sources (db, job, []) hmem
  · intro user_id e sources db job
    rfl

/-- Witness for C6: a job with a single source whose processing raises
records the message and still completes. -/
theorem C6_error_boundary_witness :
    "boom" ∈ (ingest_documents_async "u" [SourceSpec.raised "boom"] none
      { documents := [], user_documents := [] } create_job_state).2.1.errors :=
  C6_error_boundary.2.1 "u" "boom" [SourceSpec.raised "boom"]
    { documents := [], user_documents := [] } create_job_state (List.Mem.head _)

/- ### Claim C1 : content-hash deduplication -/

/-- The idempotent edge insert yields exactly one `(user, document)` edge
when at most one was present before. -/
theorem insertUserLink_count_self (links : List (String × String)) (u s : String)
    (h : List.count (u, s) links ≤ 1) :
    List.count (u, s) (insertUserLink links u s) = 1 := by
  unfold insertUserLink
  by_cases hm : (u, s) ∈ links
  · rw [if_pos hm]
    have hpos : 0 < List.count (u, s) links := List.count_pos_iff.mpr hm
    omega
  · rw [if_neg hm, List.count_append, List.count_eq_zero.mpr hm]
    simp

/-- The idempotent edge insert touches no other edge. -/
theorem insertUserLink_count_other (links : List (String × String)) (u s : String)
    (pr : String × String) (hne : pr ≠ (u, s)) :
    List.count pr (insertUserLink links u s) = List.count pr links := by
  unfold insertUserLink
  by_cases hm : (u, s) ∈ links
  · rw [if_pos hm]
  · rw [if_neg hm, List.count_append]
    have : List.count pr [(u, s)] = 0 := by
      rw [List.count_eq_zero]
      simp only [List.mem_singleton]
      exact hne
    rw [this, Nat.add_zero]

/-- C1 (amended).  When the duplicate check finds the content hash among
the stored documents, the per-source step links the current user to the
existing document with an idempotent insert (exactly one edge exists
afterwards, other edges untouched), records a `duplicate` outcome, creates
no second document row, and performs no text extraction, paper detection,
embedding, vector upsert or chunk persistence — the only collaborator
calls are the pre-dedup `process_document` ones (download, validation,
hashing and page-splitting, which the code runs before the lookup) plus
the link insert. -/
theorem C1_dedup_short_circuit (user_id sha : String) (chunks : List ChunkInfo)
    (papers : List Paper) (db : DbState) (job : JobState)
    (log : List PipelineAction)
    (hdup : sha ∈ db.documents)
    (hcount : List.count (user_id, sha) db.user_documents ≤ 1) :
    (process_source user_id (db, job, log) (.materialized sha chunks papers)).1.documents
        = db.documents ∧
    List.count (user_id, sha)
        (process_source user_id (db, job, log)
          (.materialized sha chunks papers)).1.user_documents = 1 ∧
    (∀ pr : String × String, pr ≠ (user_id, sha) →
      List.count pr (process_source user_id (db, job, log)
          (.materialized sha chunks papers)).1.user_documents =
        List.count pr db.user_documents) ∧
    (process_source user_id (db, job, log)
        (.materialized sha chunks papers)).2.1.duplicates = job.duplicates + 1 ∧
    (process_source user_id (db, job, log)
        (.materialized sha chunks papers)).2.1.successful = job.successful + 1 ∧
    (process_source user_id (db, job, log)
        (.materialized sha chunks papers)).2.1.processed = job.processed + 1 ∧
    (process_source user_id (db, job, log)
        (.materialized sha chunks papers)).2.2 =
      log ++ [.download, .validate, .computeHash sha, .splitPdf sha,
        .linkUser user_id sha] := by
  have hstep : process_source user_id (db, job, log) (.materialized sha chunks papers) =
      ({ db with user_documents := insertUserLink db.user_documents user_id sha },
        { job with
            processed := job.processed + 1
            successful := job.successful + 1
            duplicates := job.duplicates + 1
            documents := job.documents ++ [sha] },
        (log ++ [.download, .validate, .computeHash sha, .splitPdf sha])
          ++ [.linkUser user_id sha]) := by
    simp only [process_source]
    rw [if_pos hdup]
  rw [hstep]
  refine ⟨rfl, ?_, ?_, rfl, rfl, rfl, by simp⟩
  · exact insertUserLink_count_self db.user_documents user_id sha hcount
  · intro pr hne
    exact insertUserLink_count_other db.user_documents user_id sha pr hne

/-- Counterexample to C1 as stated: in `ingest_documents_async` the
page-splitting of `process_document` runs *before* the duplicate lookup,
so a source whose hash is already stored (here the database already holds
hash "h") is still re-chunked: the run's action log contains a
`splitPdf` action. -/
theorem C1_counterexample :
    "h" ∈ (DbState.mk ["h"] []).documents ∧
    PipelineAction.splitPdf "h" ∈
      (process_source "u" (DbState.mk ["h"] [], create_job_state, [])
        (.materialized "h" [] [])).2.2 := by
  decide

/-- Witness for C1 at a concrete duplicate ingestion: hash "h" already
stored, no pre-existing edge for user "u". -/
theorem C1_dedup_short_circuit_witness :
    (process_source "u" (DbState.mk ["h"] [], create_job_state, [])
        (.materialized "h" [] [])).1.documents = ["h"] ∧
    List.count ("u", "h")
      (process_source "u" (DbState.mk ["h"] [], create_job_state, [])
        (.materialized "h" [] [])).1.user_documents = 1 :=
  ⟨(C1_dedup_short_circuit "u" "h" [] [] (DbState.mk ["h"] []) create_job_state []
      (List.Mem.head _) (by decide)).1,
   (C1_dedup_short_circuit "u" "h" [] [] (DbState.mk ["h"] []) create_job_state []
      (List.Mem.head _) (by decide)).2.1⟩

/- ### Claim C2 : per-outcome counter discipline -/

/-- How many of the four job counters a step incremented. -/
def incrementedCounters (before after : JobState) : Nat :=
  (if before.processed < after.processed then 1 else 0) +
  (if before.successful < after.successful then 1 else 0) +
  (if before.failed < after.failed then 1 else 0) +
  (if before.duplicates < after.duplicates then 1 else 0)

/-- A sufficiently long extracted chunk text (length at least 50), as the
usable-text threshold requires. -/
def sampleText : String :=
  "This is a sufficiently long extracted text fragment for one chunk."

/-- Counterexample to C2 as stated: on a `duplicate` outcome the code
increments `processed`, `successful` and `duplicates` — three of the four
counters (1 would be expected by the claim for any reading of "exactly
one"). -/
theorem C2_counterexample :
    incrementedCounters create_job_state
      (process_source "u" (DbState.mk ["h"] [], create_job_state, [])
        (.materialized "h" [] [])).2.1 = 3 ∧
    ¬ incrementedCounters create_job_state
      (process_source "u" (DbState.mk ["h"] [], create_job_state, [])
        (.materialized "h" [] [])).2.1 = 1 := by
  decide

/-- C2 (amended).  `processed` is incremented exactly once per source
regardless of outcome.  The `downloadFailed`, `corrupt`, exception and
`noUsableChunks` outcomes increment `failed` (only) and append one error;
the `success` outcome increments `successful` (only); the `duplicate`
outcome increments *both* `successful` and `duplicates` (not exactly one
counter, as the original claim required).  A job with 3 sources where
source 2 fails download ends with `processed = 3`, `successful = 2`,
`failed = 1`, `duplicates = 0`, status `completed` and exactly one error
entry. -/
theorem C2_counter_discipline :
    (∀ (user_id : String) (st : DbState × JobState × List PipelineAction)
        (src : SourceSpec),
      (process_source user_id st src).2.1.processed = st.2.1.processed + 1) ∧
    (∀ (user_id : String) (db : DbState) (job : JobState)
        (log : List PipelineAction) (msg : String),
      (process_source user_id (db, job, log) (.downloadFailed msg)).2.1 =
        { job with
            processed := job.processed + 1
            failed := job.failed + 1
            errors := job.errors ++ [msg] }) ∧
    (∀ (user_id : String) (db : DbState) (job : JobState)
        (log : List PipelineAction) (msg : String),
      (process_source user_id (db, job, log) (.corrupt msg)).2.1 =
        { job with
            processed := job.processed + 1
            failed := job.failed + 1
            errors := job.errors ++ [msg] }) ∧
    (∀ (user_id : String) (db : DbState) (job : JobState)
        (log : List PipelineAction) (msg : String),
      (process_source user_id (db, job, log) (.raised msg)).2.1 =
        { job with
            processed := job.processed + 1
            failed := job.failed + 1
            errors := job.errors ++ [msg] }) ∧
    (∀ (user_id : String) (db : DbState) (job : JobState)
        (log : List PipelineAction) (sha : String) (chunks : List ChunkInfo)
        (papers : List Paper), sha ∈ db.documents →
      (process_source user_id (db, job, log) (.materialized sha chunks papers)).2.1 =
        { job with
            processed := job.processed + 1
            successful := job.successful + 1
            duplicates := job.duplicates + 1
            documents := job.documents ++ [sha] }) ∧
    (∀ (user_id : String) (db : DbState) (job : JobState)
        (log : List PipelineAction) (sha : String) (chunks : List ChunkInfo)
        (papers : List Paper), sha ∉ db.documents →
      chunks.filter usableText ≠ [] →
      (process_source user_id (db, job, log) (.materialized sha chunks papers)).2.1 =
        { job with
            processed := job.processed + 1
            successful := job.successful + 1
            documents := job.documents ++ [sha] }) ∧
    (∀ (user_id : String) (db : DbState) (job : JobState)
        (log : List PipelineAction) (sha : String) (chunks : List ChunkInfo)
        (papers : List Paper), sha ∉ db.documents →
      chunks.filter usableText = [] →
      (process_source user_id (db, job, log) (.materialized sha chunks papers)).2.1 =
        { job with
            processed := job.processed + 1
            failed := job.failed + 1
            errors := job.errors ++ ["No chunks processed successfully"] }) ∧
    ((ingest_documents_async "u"
        [SourceSpec.materialized "h1"
            [{ chunk_number := 1, page_start := 1, page_end := 8,
               text_content := sampleText }] [],
         SourceSpec.downloadFailed "Download failed",
         SourceSpec.materialized "h3"
            [{ chunk_number := 1, page_start := 1, page_end := 8,
               text_content := sampleText }] []]
        none (DbState.mk [] []) create_job_state).2.1 =
      { status := "completed", processed := 3, successful := 2, failed := 1,
        duplicates := 0, errors := ["Download failed"],
        documents := ["h1", "h3"] }) := by
  refine ⟨process_source_processed, fun _ _ _ _ _ => rfl, fun _ _ _ _ _ => rfl,
    fun _ _ _ _ _ => rfl, ?_, ?_, ?_, ?_⟩
  · intro user_id db job log sha chunks papers hdup
    simp only [process_source]
    rw [if_pos hdup]
  · intro user_id db job log sha chunks papers hsha hne
    have hie : (chunks.filter usableText).isEmpty = false := by
      cases hfe : chunks.filter usableText with
      | nil => exact absurd hfe hne
      | cons a t => rfl
    simp only [process_source, hie]
    rw [if_neg hsha]
    simp
  · intro user_id db job log sha chunks papers hsha hfe
    simp only [process_source, hfe]
    rw [if_neg hsha]
    simp
  · decide

/-- Witness for C2 at a concrete duplicate source: the step increments
`processed`, `successful` and `duplicates` together. -/
theorem C2_counter_discipline_witness :
    (process_source "u" (DbState.mk ["h"] [], create_job_state, [])
        (.materialized "h" [] [])).2.1 =
      { create_job_state with
          processed := create_job_state.processed + 1
          successful := create_job_state.successful + 1
          duplicates := create_job_state.duplicates + 1
          documents := create_job_state.documents ++ ["h"] } :=
  C2_counter_discipline.2.2.2.2.1 "u" (DbState.mk ["h"] []) create_job_state []
    "h" [] [] (List.Mem.head _)

/- ### rag/src/text_splitter.py -/

/-- Python `str.split()` (no argument): split on whitespace runs and drop
empty fragments.  `acc` holds the current word, reversed. -/
def pyWordsGo (acc : List Char) : List Char → List (List Char)
  | [] => if acc.isEmpty then [] else [acc.reverse]
  | c :: cs =>
    if c.isWhitespace then
      if acc.isEmpty then pyWordsGo [] cs
      else acc.reverse :: pyWordsGo [] cs
    else
      pyWordsGo (c :: acc) cs

/-- The word list of a Python string (strings are modelled as `List Char`
throughout the text-splitter embedding). -/
def pyWords (l : List Char) : List (List Char) :=
  pyWordsGo [] l

/-- Model of `estimate_tokens`: `int(len(text.split()) * 1.3)`.  For every
word count that fits in a 64-bit float's exact integer range the Python
float computation coincides with `13 * n / 10` in integer arithmetic
(1.3 rounds up in binary, and the excess stays far below the distance to
the next lower integer), so the embedding uses the exact rational
truncation. -/
def estimate_tokens (l : List Char) : Nat :=
  13 * (pyWords l).length / 10

/-- Python `str.strip()`: remove leading and trailing whitespace. -/
def pyStrip (l : List Char) : List Char :=
  ((l.dropWhile (fun c => c.isWhitespace)).reverse.dropWhile
    (fun c => c.isWhitespace)).reverse

/-- Python `l[-n:]` for the slices the splitter takes (`l[-0:]` is the
whole list). -/
def pySuffix {α : Type} (n : Nat) (l : List α) : List α :=
  if n = 0 then l else l.drop (l.length - n)

/-- One leftmost-match attempt of the separator regular expression
`([.!?]\s+|\n{2,})` at the head of the text: returns the matched separator
and the rest of the text.  The first alternative needs sentence-ending
punctuation followed by at least one whitespace character (greedy); the
second needs at least two consecutive newlines (greedy). -/
def reSepMatch : List Char → Option (List Char × List Char)
  | [] => none
  | c :: cs =>
    if c = '.' ∨ c = '!' ∨ c = '?' then
      let ws := cs.takeWhile (fun x => x.isWhitespace)
      if ws.isEmpty then none
      else some (c :: ws, cs.dropWhile (fun x => x.isWhitespace))
    else if c = '\n' then
      let ns := (c :: cs).takeWhile (fun x => x = '\n')
      if 2 ≤ ns.length then some (ns, (c :: cs).dropWhile (fun x => x = '\n'))
      else none
    else
      none

/-- Dropping a prefix never lengthens a list. -/
theorem dropWhile_length_le (p : Char → Bool) (l : List Char) :
    (l.dropWhile p).length ≤ l.length :=
  (List.dropWhile_suffix p).sublist.length_le

/-- A successful separator match consumes at least one character. -/
theorem reSepMatch_rest_length (l sep rest : List Char)
    (h : reSepMatch l = some (sep, rest)) : rest.length < l.length := by
  match l with
  | [] => cases h
  | c :: cs =>
    simp only [reSepMatch] at h
    by_cases h1 : c = '.' ∨ c = '!' ∨ c = '?'
    · rw [if_pos h1] at h
      by_cases h2 : (cs.takeWhile (fun x => x.isWhitespace)).isEmpty
      · simp only [h2, if_true] at h
        cases h
      · simp only [h2, Bool.false_eq_true, if_false] at h
        have := dropWhile_length_le (fun x => x.isWhitespace) cs
        cases h
        simp only [List.length_cons]
        omega
    · rw [if_neg h1] at h
      by_cases h3 : c = '\n'
      · rw [if_pos h3] at h
        by_cases h4 : 2 ≤ ((c :: cs).takeWhile (fun x => x = '\n')).length
        · rw [if_pos h4] at h
          cases h
          rw [List.dropWhile_cons, if_pos (by rw [h3]; rfl)]
          have := dropWhile_length_le (fun x => decide (x = '\n')) cs
          simp only [List.length_cons]
          omega
        · rw [if_neg h4] at h
          cases h
      · rw [if_neg h3] at h
        cases h

/-- The scanning loop of `re.split` with the capturing separator pattern:
produce the alternating `token, separator, token, ..., token` list
(`acc` holds the pending token, reversed). -/
def reSplitAux (acc : List Char) (l : List Char) : List (List Char) :=
  match hl : l with
  | [] => [acc.reverse]
  | c :: cs =>
    match hm : reSepMatch (c :: cs) with
    | some (sep, rest) => acc.reverse :: sep :: reSplitAux [] rest
    | none => reSplitAux (c :: acc) cs
termination_by l.length
decreasing_by
  · exact reSepMatch_rest_length _ _ _ hm
  · simp

/-- The `for i in range(0, len(sentences), 2)` pairing of the regex-split
output: each token with its following separator (the empty string when the
list ends on a token). -/
def pairUp : List (List Char) → List (List Char × List Char)
  | [] => []
  | [s] => [(s, [])]
  | s :: sep :: rest => (s, sep) :: pairUp rest

/-- One iteration of the oversized-sentence word loop of
`split_text_by_tokens`: accumulate words up to the target, emitting the
chunk and re-seeding with the last `overlap_tokens` words on overflow.
State is `(chunks, word_chunk, word_tokens)`. -/
def wordSplitStep (target_tokens overlap_tokens : Nat)
    (acc : List (List Char) × List (List Char) × Nat) (word : List Char) :
    List (List Char) × List (List Char) × Nat :=
  let chunks := acc.1
  let word_chunk := acc.2.1
  let word_tokens := acc.2.2
  let word_token_estimate := estimate_tokens word
  if target_tokens < word_tokens + word_token_estimate ∧ word_chunk ≠ [] then
    let overlap_words :=
      if overlap_tokens < word_chunk.length then pySuffix overlap_tokens word_chunk
      else word_chunk
    let word_chunk' := overlap_words ++ [word]
    (chunks ++ [List.intercalate [' '] word_chunk], word_chunk',
      estimate_tokens (List.intercalate [' '] word_chunk'))
  else
    (chunks, word_chunk ++ [word], word_tokens + word_token_estimate)

/-- The oversized-sentence path (`sentence_tokens > max_tokens`): run the
word loop over the sentence's words and flush the remaining word chunk. -/
def wordSplit (target_tokens overlap_tokens : Nat)
    (chunks : List (List Char)) (sentence : List Char) : List (List Char) :=
  let res := (pyWords sentence).foldl (wordSplitStep target_tokens overlap_tokens)
    (chunks, [], 0)
  if res.2.1 ≠ [] then res.1 ++ [List.intercalate [' '] res.2.1] else res.1

/-- One iteration of the sentence loop of `split_text_by_tokens` over a
`(sentence, separator)` pair.  State is
`(chunks, current_chunk, current_tokens)`.  An oversized sentence goes to
the word loop and leaves the current chunk untouched (`continue`);
otherwise close the current chunk on overflow (keeping the last 3 pieces
as overlap), append `sentence + separator`, and close the chunk again when
the running token estimate lands inside `[target, max]` (keeping the last
2 pieces as overlap). -/
def sentenceStep (target_tokens max_tokens overlap_tokens : Nat)
    (st : List (List Char) × List (List Char) × Nat)
    (pr : List Char × List Char) :
    List (List Char) × List (List Char) × Nat :=
  let sentence := pr.1
  let separator := pr.2
  let sentence_tokens := estimate_tokens sentence
  if max_tokens < sentence_tokens then
    (wordSplit target_tokens overlap_tokens st.1 sentence, st.2.1, st.2.2)
  else
    let st1 :=
      if max_tokens < st.2.2 + sentence_tokens ∧ st.2.1 ≠ [] then
        let overlap_text := List.flatten (pySuffix 3 st.2.1)
        (st.1 ++ [pyStrip (List.flatten st.2.1)],
          if overlap_text ≠ [] then [overlap_text] else ([] : List (List Char)),
          estimate_tokens overlap_text)
      else st
    let current_chunk := st1.2.1 ++ [sentence ++ separator]
    let current_tokens := st1.2.2 + sentence_tokens
    if target_tokens ≤ current_tokens ∧ current_tokens ≤ max_tokens then
      let overlap_text := List.flatten (pySuffix 2 current_chunk)
      (st1.1 ++ [pyStrip (List.flatten current_chunk)],
        if overlap_text ≠ [] then [overlap_text] else ([] : List (List Char)),
        estimate_tokens overlap_text)
    else
      (st1.1, current_chunk, current_tokens)

/-- Python `chunks[-1] += ' ' + remaining_text`. -/
def appendToLast : List (List Char) → List Char → List (List Char)
  | [], _ => []
  | [c], suffix => [c ++ ' ' :: suffix]
  | c :: d :: rest, suffix => c :: appendToLast (d :: rest) suffix

/-- The trailing-text handling of `split_text_by_tokens`: a non-empty
remaining chunk is emitted standalone when its token estimate reaches
`min_tokens` or no chunk was emitted yet, and is otherwise merged into the
last emitted chunk. -/
def finalizeChunks (min_tokens : Nat) (chunks : List (List Char))
    (current_chunk : List (List Char)) : List (List Char) :=
  if current_chunk ≠ [] then
    let remaining_text := pyStrip (List.flatten current_chunk)
    if min_tokens ≤ estimate_tokens remaining_text ∨ chunks = [] then
      chunks ++ [remaining_text]
    else
      appendToLast chunks remaining_text
  else
    chunks

/-- Model of `split_text_by_tokens` from rag/src/text_splitter.py: empty or
whitespace-only input yields no chunks; otherwise the text is regex-split
into sentences with their separators, folded through the sentence loop,
the trailing chunk is finalized, and empty-after-strip chunks are filtered
out. -/
def split_text_by_tokens (text : List Char)
    (target_tokens min_tokens max_tokens overlap_tokens : Nat) :
    List (List Char) :=
  if pyStrip text = [] then []
  else
    let sentences := reSplitAux [] text
    let res := (pairUp sentences).foldl
      (sentenceStep target_tokens max_tokens overlap_tokens) ([], [], 0)
    (finalizeChunks min_tokens res.1 res.2.1).filter (fun c => pyStrip c ≠ [])

/- ### Claim C7 : token-bounded text splitting -/

/-- Merging the trailing text into the last chunk does not change the
number of chunks. -/
theorem appendToLast_length (chunks : List (List Char)) (suffix : List Char) :
    (appendToLast chunks suffix).length = chunks.length := by
  induction chunks with
  | nil => rfl
  | cons c rest ih =>
    cases rest with
    | nil => rfl
    | cons d ds =>
      simp only [appendToLast, List.length_cons]
      simp only [appendToLast, List.length_cons] at ih
      omega

/-- C7.  `split_text_by_tokens` never returns an empty or whitespace-only
segment; and a non-empty trailing segment whose token estimate is below
`min_tokens` is merged into the previous segment (leaving the number of
segments unchanged) rather than emitted standalone — unless it is the only
segment, in which case it is emitted on its own. -/
theorem C7_split_text_by_tokens :
    (∀ (text : List Char) (target_tokens min_tokens max_tokens overlap_tokens : Nat)
        (c : List Char),
      c ∈ split_text_by_tokens text target_tokens min_tokens max_tokens overlap_tokens →
      pyStrip c ≠ []) ∧
    (∀ (min_tokens : Nat) (chunks current_chunk : List (List Char)),
      current_chunk ≠ [] →
      estimate_tokens (pyStrip (List.flatten current_chunk)) < min_tokens →
      chunks ≠ [] →
      finalizeChunks min_tokens chunks current_chunk =
        appendToLast chunks (pyStrip (List.flatten current_chunk)) ∧
      (finalizeChunks min_tokens chunks current_chunk).length = chunks.length) ∧
    (∀ (min_tokens : Nat) (current_chunk : List (List Char)),
      current_chunk ≠ [] →
      finalizeChunks min_tokens [] current_chunk =
        [pyStrip (List.flatten current_chunk)]) := by
  refine ⟨?_, ?_, ?_⟩
  · intro text target_tokens min_tokens max_tokens overlap_tokens c hc
    unfold split_text_by_tokens at hc
    by_cases h : pyStrip text = []
    · rw [if_pos h] at hc
      cases hc
    · rw [if_neg h] at hc
      simp only [List.mem_filter, decide_eq_true_eq] at hc
      exact hc.2
  · intro min_tokens chunks current_chunk hcc hest hch
    unfold finalizeChunks
    rw [if_pos hcc]
    have hcond : ¬ (min_tokens ≤ estimate_tokens (pyStrip (List.flatten current_chunk))
        ∨ chunks = []) := by
      rintro (h1 | h2)
      · omega
      · exact hch h2
    rw [if_neg hcond]
    exact ⟨rfl, appendToLast_length chunks _⟩
  · intro min_tokens current_chunk hcc
    unfold finalizeChunks
    rw [if_pos hcc, if_pos (Or.inr rfl)]
    rfl

/-- Witness for C7: a one-word trailing chunk (token estimate 1, below the
minimum of 400) is merged into the previous chunk, keeping one chunk. -/
theorem C7_split_text_by_tokens_witness :
    finalizeChunks 400 [['a']] [['b']] =
      appendToLast [['a']] (pyStrip (List.flatten [['b']])) ∧
    (finalizeChunks 400 [['a']] [['b']]).length = [['a']].length :=
  C7_split_text_by_tokens.2.1 400 [['a']] [['b']]
    (by decide) (by decide) (by decide)
